import Mathlib

/-!
Verification of the token-budget estimation / content-compression / provider
subsystem of the git-graph-ai repository (src/ai_service/token_manager.py and
src/ai_service/model_providers.py).

Modelling conventions (shallow embedding):
* Python strings are modelled as `List Char` (`Text`); `len` is `List.length`
  (both count Unicode code points).
* Python's `text.split('\n')` / `'\n'.join(...)` are `splitOnChar` / `joinChar`.
* Python's substring test `needle in hay` is `containsSub`.
* Python's `int(a / b)` on non-negative ints is modelled as `Nat` division
  (`a / b`); for the values arising here (magnitudes far below 2^50 and never
  at a float rounding boundary) IEEE-double division followed by `int(...)`
  truncation agrees with exact rational division followed by floor.  The
  `compression_ratio = target_tokens / current_tokens` float of
  `_compress_diff_content` is therefore passed to `_regular_compress_diff`
  as the exact pair (numerator, denominator).
* A Python dict used as a file-analysis record is modelled by the structure
  `FileData` with the two fields the code reads (`filePath`, `diffContent`);
  `dict.copy()` is the identity on this value type, absent keys are the
  empty string, and such a record is always truthy.
* Raised exceptions are modelled as explicit error values.
-/

abbrev Text := List Char

/-- Python's substring containment `needle in hay`. -/
def containsSub (needle : Text) : Text → Bool
  | [] => needle.isEmpty
  | a :: t => needle.isPrefixOf (a :: t) || containsSub needle t

/-- The fixed `code_indicators` list of `TokenManager._is_code_content`. -/
def code_indicators : List Text :=
  [("```".data), ("function".data), ("class ".data), ("def ".data),
   ("import ".data), ("require".data),
   ("{}".data), ("[]".data), ("()".data), ("=>".data), ("->".data), ("::".data),
   ("+++".data), ("---".data), ("@@".data), ("diff".data)]

/-- `TokenManager._is_code_content`: at least two of the fixed indicators
occur in the text. -/
def _is_code_content (t : Text) : Bool :=
  2 ≤ code_indicators.countP (fun i => containsSub i t)

/-- `TokenManager.estimate_tokens`: 0 for empty text, `len/3` for code-like
text, `len/4` otherwise. -/
def estimate_tokens (t : Text) : Nat :=
  if t = [] then 0
  else if _is_code_content t then t.length / 3 else t.length / 4

/-- The newline separator used throughout the compression code. -/
def newline : Char := '\n'

/-- Python's `text.split('\n')` (in particular `''.split('\n') = ['']`). -/
def splitOnChar (c : Char) : Text → List Text
  | [] => [[]]
  | a :: rest =>
    match splitOnChar c rest with
    | [] => if a = c then [[], []] else [[a]]
    | h :: tl => if a = c then [] :: h :: tl else (a :: h) :: tl

/-- Python's `'\n'.join(parts)` (with `c` the separator). -/
def joinChar (c : Char) : List Text → Text
  | [] => []
  | [l] => l
  | l :: l₂ :: ls => l ++ c :: joinChar c (l₂ :: ls)

/-- The line classifier of `TokenManager._regular_compress_diff`: a line is
"important" when it matches one of the five priority regular expressions
`^@@.*@@`, `^\+\+\+`, `^---`, `^\+.*`, `^-.*` (anchored at the line start). -/
def is_important (l : Text) : Bool :=
  (("@@".data).isPrefixOf l && containsSub ("@@".data) (l.drop 2))
  || ("+++".data).isPrefixOf l
  || ("---".data).isPrefixOf l
  || ("+".data).isPrefixOf l
  || ("-".data).isPrefixOf l

/-- The context-line loop of `_regular_compress_diff`: starting from
`cur` accumulated characters, keep each context line while
`cur + len(line) + 1 <= target_chars`, stopping at the first line that does
not fit (Python `break`). -/
def addContext (target_chars : Nat) : Nat → List Text → List Text
  | _, [] => []
  | cur, l :: ls =>
    if cur + l.length + 1 ≤ target_chars then
      l :: addContext target_chars (cur + l.length + 1) ls
    else []

/-- The truncation marker `'\n...[内容已截断]'` of `_regular_compress_diff`. -/
def truncMarker : Text := ("\n...[内容已截断]".data)

/-- The local `lines` of the compression routines: `diff_content.split('\n')`. -/
def diffLines (diff : Text) : List Text := splitOnChar newline diff

/-- The local `important_lines` of `_regular_compress_diff`. -/
def importantLines (diff : Text) : List Text := (diffLines diff).filter is_important

/-- The local `context_lines` of `_regular_compress_diff`. -/
def contextLines (diff : Text) : List Text :=
  (diffLines diff).filter (fun l => !(is_important l))

/-- The local `target_chars = int(total_chars * compression_ratio)` of
`_regular_compress_diff`, with `total_chars = len('\n'.join(lines))` and the
float ratio received as the exact pair `(t_num, t_den)`. -/
def regularTargetChars (diff : Text) (t_num t_den : Nat) : Nat :=
  (joinChar newline (diffLines diff)).length * t_num / t_den

/-- The local `result = '\n'.join(result_lines)` of `_regular_compress_diff`:
all important lines first, then the context lines kept by the running
character budget (which starts at `len('\n'.join(important_lines))`). -/
def regularResult (diff : Text) (t_num t_den : Nat) : Text :=
  joinChar newline (importantLines diff ++
    addContext (regularTargetChars diff t_num t_den)
      (joinChar newline (importantLines diff)).length (contextLines diff))

/-- `TokenManager._regular_compress_diff`.  The Python float
`compression_ratio = target_tokens / current_tokens` is received as the exact
pair `(t_num, t_den)`, so `int(total_chars * compression_ratio)` becomes
`total_chars * t_num / t_den` in `Nat`. -/
def _regular_compress_diff (diff : Text) (t_num t_den : Nat) : Text :=
  if regularTargetChars diff t_num t_den < (regularResult diff t_num t_den).length then
    (regularResult diff t_num t_den).take (regularTargetChars diff t_num t_den) ++ truncMarker
  else regularResult diff t_num t_den

/-- The `f'[新增 {n} 行]'` summary line of `_aggressive_compress_diff`. -/
def addedCount (n : Nat) : Text := ("[新增 ".data) ++ (Nat.repr n).data ++ (" 行]".data)

/-- The `f'...[还有 {n} 行新增]'` summary line of `_aggressive_compress_diff`. -/
def addedMore (n : Nat) : Text := ("...[还有 ".data) ++ (Nat.repr n).data ++ (" 行新增]".data)

/-- The `f'[删除 {n} 行]'` summary line of `_aggressive_compress_diff`. -/
def removedCount (n : Nat) : Text := ("[删除 ".data) ++ (Nat.repr n).data ++ (" 行]".data)

/-- The `f'...[还有 {n} 行删除]'` summary line of `_aggressive_compress_diff`. -/
def removedMore (n : Nat) : Text := ("...[还有 ".data) ++ (Nat.repr n).data ++ (" 行删除]".data)

/-- The truncation marker `'\n...[已极度压缩]'` of `_aggressive_compress_diff`. -/
def aggrMarker : Text := ("\n...[已极度压缩]".data)

/-- The local `added_lines` of `_aggressive_compress_diff`:
lines with `line.startswith('+') and not line.startswith('+++')`. -/
def addedLinesOf (diff : Text) : List Text :=
  (diffLines diff).filter
    (fun l => ("+".data).isPrefixOf l && !(("+++".data).isPrefixOf l))

/-- The local `removed_lines` of `_aggressive_compress_diff`. -/
def removedLinesOf (diff : Text) : List Text :=
  (diffLines diff).filter
    (fun l => ("-".data).isPrefixOf l && !(("---".data).isPrefixOf l))

/-- The local `headers` of `_aggressive_compress_diff`:
lines with `line.startswith('@@')`. -/
def headersOf (diff : Text) : List Text :=
  (diffLines diff).filter (fun l => ("@@".data).isPrefixOf l)

/-- The local `summary_parts` of `_aggressive_compress_diff`: at most one
header, then up to 3 added lines and up to 3 removed lines, each group
bracketed by its count summaries. -/
def aggressiveParts (diff : Text) : List Text :=
  (match headersOf diff with | [] => [] | h :: _ => [h]) ++
  (if addedLinesOf diff = [] then []
   else [addedCount (addedLinesOf diff).length] ++ (addedLinesOf diff).take 3 ++
     (if 3 < (addedLinesOf diff).length then [addedMore ((addedLinesOf diff).length - 3)] else [])) ++
  (if removedLinesOf diff = [] then []
   else [removedCount (removedLinesOf diff).length] ++ (removedLinesOf diff).take 3 ++
     (if 3 < (removedLinesOf diff).length then [removedMore ((removedLinesOf diff).length - 3)] else []))

/-- The local `result = '\n'.join(summary_parts)` of
`_aggressive_compress_diff`. -/
def aggressiveResult (diff : Text) : Text := joinChar newline (aggressiveParts diff)

/-- `TokenManager._aggressive_compress_diff`: keep at most one `@@` header,
the first 3 added and first 3 removed lines with count summaries, then
hard-truncate to `target_tokens * 4` characters. -/
def _aggressive_compress_diff (diff : Text) (target_tokens : Nat) : Text :=
  if target_tokens * 4 < (aggressiveResult diff).length then
    (aggressiveResult diff).take (target_tokens * 4) ++ aggrMarker
  else aggressiveResult diff

/-- `TokenManager._compress_diff_content`: no-op on empty text and on text
already within `target_tokens`, otherwise dispatch to the aggressive or the
regular compressor (`current = estimate_tokens(diff_content)` is inlined;
the function is pure, so the two occurrences denote the same value). -/
def _compress_diff_content (diff : Text) (target_tokens : Nat) (aggressive : Bool) : Text :=
  if diff = [] then diff
  else if estimate_tokens diff ≤ target_tokens then diff
  else if aggressive then _aggressive_compress_diff diff target_tokens
  else _regular_compress_diff diff target_tokens (estimate_tokens diff)

/-- A file-analysis record (the dict fields `TokenManager` reads). -/
structure FileData where
  filePath : Text
  diffContent : Text
deriving DecidableEq

/-- `TokenManager._estimate_base_prompt_tokens` (constant 300). -/
def _estimate_base_prompt_tokens : Nat := 300

/-- `TokenManager._estimate_file_tokens`: path tokens + 10 + diff tokens. -/
def _estimate_file_tokens (fd : FileData) : Nat :=
  estimate_tokens fd.filePath + 10 + estimate_tokens fd.diffContent

/-- `TokenManager._optimize_single_file`. -/
def _optimize_single_file (fd : FileData) (available_tokens : Nat) : Option FileData :=
  if available_tokens < 50 then none
  else if fd.diffContent = [] then some fd
  else if _estimate_file_tokens fd ≤ available_tokens then some fd
  else some { fd with diffContent := _compress_diff_content fd.diffContent (available_tokens - 30) false }

/-- `TokenManager._compress_file_content`. -/
def _compress_file_content (fd : FileData) (max_tokens : Nat) : Option FileData :=
  if max_tokens < 30 then none
  else some { fd with diffContent := _compress_diff_content fd.diffContent (max_tokens - 20) true }

/-- The `for file_data in file_analysis_data` loop of
`TokenManager.optimize_file_analysis_data`, with `afr` the budget
`available_for_files` and `used` the running `used_tokens`.  A `None` from
`_optimize_single_file` (or a falsy record) lets the loop continue with the
next file; the `else` branch always ends in `break`. -/
def optimizeLoop (afr : Nat) : Nat → List FileData → List FileData
  | _, [] => []
  | used, fd :: rest =>
    match _optimize_single_file fd (afr - used) with
    | none => optimizeLoop afr used rest
    | some ofd =>
      if used + _estimate_file_tokens ofd ≤ afr then
        ofd :: optimizeLoop afr (used + _estimate_file_tokens ofd) rest
      else if 50 < afr - used then
        match _compress_file_content ofd (afr - used) with
        | none => []
        | some cf => [cf]
      else []

/-- `TokenManager.optimize_file_analysis_data`, with `available_tokens` the
manager's `self.available_tokens`.  (When `available_tokens - 300` is
negative in Python it is `< 100` just like the truncated `Nat` value, so both
return `[]`.) -/
def optimize_file_analysis_data (available_tokens : Nat) (files : List FileData) : List FileData :=
  if files = [] then []
  else if available_tokens - _estimate_base_prompt_tokens < 100 then []
  else optimizeLoop (available_tokens - _estimate_base_prompt_tokens) 0 files

/-- Total estimated token count of a list of file records. -/
def sumFileTokens (l : List FileData) : Nat :=
  (l.map _estimate_file_tokens).sum

/-- The `MODEL_LIMITS` table of `TokenManager`. -/
def MODEL_LIMITS : List (String × Nat) :=
  [("deepseek-v3", 32768), ("deepseek-r1", 32768), ("gpt-4", 8192),
   ("gpt-4-32k", 32768), ("gpt-4.1", 1047576), ("gpt-4.1-mini", 1047576)]

/-- A constructed `TokenManager` (the state established by
`TokenManager.__init__`). -/
structure TokenManager where
  model_name : String
  max_tokens : Nat
  reserved_response_tokens : Nat
  available_tokens : Nat

/-- `TokenManager.__init__`: unknown model names default to a 32768-token
window; 800 response tokens are reserved, raised to 2000 for context windows
above 100000 tokens. -/
def modelLimitOf (model_name : String) : Nat :=
  (MODEL_LIMITS.lookup model_name).getD 32768

def TokenManager.init (model_name : String) : TokenManager :=
  if 100000 < modelLimitOf model_name then
    { model_name := model_name, max_tokens := modelLimitOf model_name,
      reserved_response_tokens := 2000, available_tokens := modelLimitOf model_name - 2000 }
  else
    { model_name := model_name, max_tokens := modelLimitOf model_name,
      reserved_response_tokens := 800, available_tokens := modelLimitOf model_name - 800 }

/-- A backend provider as `ModelManager` sees it (only its display name is
relevant to `switch_provider`). -/
structure Provider where
  provider_display : String
deriving DecidableEq

/-- The `ModelManager` registry state: the provider map and the currently
selected provider. -/
structure ModelManager where
  providers : List (String × Provider)
  current_provider : Option Provider
deriving DecidableEq

/-- Outcome of `ModelManager.switch_provider`: the returned provider name, or
the raised `ValueError` (the spec's `UnknownProviderError`) carrying the
unknown identifier. -/
inductive SwitchOutcome where
  | ok (newName : String)
  | unknownProvider (pname : String)
deriving DecidableEq

/-- `ModelManager.switch_provider`: raise (state unchanged) when the
identifier is absent, otherwise replace `current_provider` in one assignment
and return the new provider's display name. -/
def switch_provider (m : ModelManager) (provider_name : String) : ModelManager × SwitchOutcome :=
  match m.providers.lookup provider_name with
  | none => (m, .unknownProvider provider_name)
  | some p => ({ m with current_provider := some p }, .ok p.provider_display)

/-! ### Generic facts about `splitOnChar`, `joinChar`, prefixes and infixes -/

theorem joinChar_nil (c : Char) : joinChar c [] = [] := rfl

theorem joinChar_single (c : Char) (l : Text) : joinChar c [l] = l := rfl

theorem joinChar_cons₂ (c : Char) (l l₂ : Text) (ls : List Text) :
    joinChar c (l :: l₂ :: ls) = l ++ c :: joinChar c (l₂ :: ls) := rfl

theorem splitOnChar_cons (c a : Char) (rest : Text) :
    splitOnChar c (a :: rest) =
      match splitOnChar c rest with
      | [] => if a = c then [[], []] else [[a]]
      | h :: tl => if a = c then [] :: h :: tl else (a :: h) :: tl := rfl

theorem splitOnChar_ne_nil (c : Char) (l : Text) : splitOnChar c l ≠ [] := by
  cases l with
  | nil => simp [splitOnChar]
  | cons a rest =>
    rw [splitOnChar_cons]
    cases hs : splitOnChar c rest with
    | nil => simp only; split <;> simp
    | cons h tl => simp only; split <;> simp

theorem joinChar_splitOnChar (c : Char) : ∀ l : Text, joinChar c (splitOnChar c l) = l := by
  intro l
  induction l with
  | nil => rfl
  | cons a rest ih =>
    rw [splitOnChar_cons]
    cases hs : splitOnChar c rest with
    | nil => exact absurd hs (splitOnChar_ne_nil c rest)
    | cons h tl =>
      rw [hs] at ih
      simp only
      by_cases hac : a = c
      · subst hac
        rw [if_pos rfl, joinChar_cons₂]
        rw [ih]
        rfl
      · rw [if_neg hac]
        cases tl with
        | nil => rw [joinChar_single] at ih ⊢; rw [ih]
        | cons t₂ tl₂ =>
          rw [joinChar_cons₂] at ih ⊢
          rw [List.cons_append, ih]

theorem infix_of_mem_joinChar (c : Char) : ∀ (L : List Text) (l : Text), l ∈ L → l <:+: joinChar c L := by
  intro L
  induction L with
  | nil => simp
  | cons x xs ih =>
    intro l hl
    cases xs with
    | nil =>
      rw [List.mem_singleton] at hl
      subst hl
      exact List.infix_refl l
    | cons y ys =>
      rcases List.mem_cons.mp hl with rfl | hmem
      · exact ⟨[], c :: joinChar c (y :: ys), rfl⟩
      · have h1 : l <:+: joinChar c (y :: ys) := ih l hmem
        have h2 : joinChar c (y :: ys) <:+: joinChar c (x :: y :: ys) := by
          rw [joinChar_cons₂]
          exact ⟨x ++ [c], [], by simp⟩
        exact h1.trans h2

theorem infix_of_mem_splitOnChar (c : Char) (t l : Text) (h : l ∈ splitOnChar c t) : l <:+: t := by
  have := infix_of_mem_joinChar c (splitOnChar c t) l h
  rwa [joinChar_splitOnChar] at this

theorem isPrefixOf_eq_true_iff : ∀ i l : Text, (i.isPrefixOf l) = true ↔ i <+: l := by
  intro i
  induction i with
  | nil =>
    intro l
    constructor
    · intro _; exact ⟨l, rfl⟩
    · intro _; cases l <;> rfl
  | cons a as ih =>
    intro l
    cases l with
    | nil =>
      simp only [List.isPrefixOf]
      constructor
      · intro h; cases h
      · intro ⟨w, hw⟩; cases hw
    | cons b bs =>
      simp only [List.isPrefixOf, Bool.and_eq_true, beq_iff_eq, List.cons_prefix_cons]
      exact and_congr Iff.rfl (ih bs)

theorem containsSub_iff (i : Text) : ∀ h : Text, containsSub i h = true ↔ i <:+: h := by
  intro h
  induction h with
  | nil =>
    simp only [containsSub, List.isEmpty_iff]
    constructor
    · rintro rfl; exact List.infix_refl []
    · rintro ⟨s, t, hst⟩
      rcases List.append_eq_nil.mp hst with ⟨h1, h2⟩
      exact (List.append_eq_nil.mp h1).2
  | cons a t ih =>
    simp only [containsSub, Bool.or_eq_true, isPrefixOf_eq_true_iff, ih]
    exact (List.infix_cons_iff).symm

theorem pre_of_pre_append_cons {c : Char} {s x y : Text} (hc : c ∉ s) :
    s <+: x ++ c :: y → s <+: x := by
  induction x generalizing s with
  | nil =>
    intro h
    cases s with
    | nil => exact ⟨[], rfl⟩
    | cons a as =>
      rw [List.nil_append, List.cons_prefix_cons] at h
      exact absurd (h.1 ▸ List.mem_cons_self a as) hc
  | cons b x' ih =>
    intro h
    cases s with
    | nil => exact ⟨b :: x', rfl⟩
    | cons a as =>
      rw [List.cons_append, List.cons_prefix_cons] at h
      obtain ⟨rfl, h2⟩ := h
      have has : c ∉ as := fun hmem => hc (List.mem_cons_of_mem _ hmem)
      rw [List.cons_prefix_cons]
      exact ⟨rfl, ih has h2⟩

theorem infix_split_append_cons {c : Char} {s x y : Text} (hc : c ∉ s) :
    s <:+: x ++ c :: y → s <:+: x ∨ s <:+: y := by
  induction x generalizing s with
  | nil =>
    intro h
    rw [List.nil_append] at h
    obtain ⟨u, v, huv⟩ := h
    cases u with
    | nil =>
      cases s with
      | nil => exact Or.inl (List.infix_refl [])
      | cons a as =>
        rw [List.nil_append, List.cons_append] at huv
        have : a = c := (List.cons.injEq _ _ _ _).mp huv |>.1
        exact absurd (this ▸ List.mem_cons_self a as) hc
    | cons u₀ u' =>
      rw [List.cons_append, List.cons_append] at huv
      obtain ⟨-, huv2⟩ := (List.cons.injEq _ _ _ _).mp huv
      exact Or.inr ⟨u', v, huv2⟩
  | cons b x' ih =>
    intro h
    rw [List.cons_append] at h
    rcases List.infix_cons_iff.mp h with hpre | hinf
    · cases s with
      | nil => exact Or.inl ⟨[], b :: x', rfl⟩
      | cons a as =>
        rw [List.cons_prefix_cons] at hpre
        obtain ⟨rfl, h2⟩ := hpre
        have has : c ∉ as := fun hmem => hc (List.mem_cons_of_mem _ hmem)
        have := pre_of_pre_append_cons has h2
        exact Or.inl (List.cons_prefix_cons.mpr ⟨rfl, this⟩).isInfix
    · rcases ih hc hinf with h1 | h2
      · exact Or.inl (h1.trans ⟨[b], [], by simp⟩)
      · exact Or.inr h2

theorem infix_joinChar_mem (c : Char) {s : Text} (hne : s ≠ []) (hc : c ∉ s) :
    ∀ L : List Text, s <:+: joinChar c L → ∃ l ∈ L, s <:+: l := by
  intro L
  induction L with
  | nil =>
    intro h
    obtain ⟨u, v, huv⟩ := h
    rcases List.append_eq_nil.mp huv with ⟨h1, -⟩
    exact absurd (List.append_eq_nil.mp h1).2 hne
  | cons x xs ih =>
    intro h
    cases xs with
    | nil => exact ⟨x, List.mem_singleton_self x, by rwa [joinChar_single] at h⟩
    | cons y ys =>
      rw [joinChar_cons₂] at h
      rcases infix_split_append_cons hc h with h1 | h2
      · exact ⟨x, List.mem_cons_self x _, h1⟩
      · obtain ⟨l, hl, hs⟩ := ih h2
        exact ⟨l, List.mem_cons_of_mem x hl, hs⟩

theorem addContext_subset (tc : Nat) : ∀ (cur : Nat) (ls : List Text) (l : Text),
    l ∈ addContext tc cur ls → l ∈ ls := by
  intro cur ls
  induction ls generalizing cur with
  | nil => intro l h; simp [addContext] at h
  | cons x xs ih =>
    intro l h
    rw [addContext] at h
    split at h
    · rcases List.mem_cons.mp h with rfl | hmem
      · exact List.mem_cons_self l xs
      · exact List.mem_cons_of_mem x (ih _ l hmem)
    · simp at h

theorem joinChar_eq_nil_iff (c : Char) (L : List Text) :
    joinChar c L = [] ↔ L = [] ∨ L = [[]] := by
  cases L with
  | nil => simp [joinChar_nil]
  | cons x xs =>
    cases xs with
    | nil => simp [joinChar_single]
    | cons y ys =>
      rw [joinChar_cons₂]
      simp

/-! ### Facts about the model table and the constructor -/

theorem lookup_mem_values {α β : Type} [BEq α] {l : List (α × β)} {k : α} {v : β}
    (h : l.lookup k = some v) : v ∈ l.map Prod.snd := by
  induction l with
  | nil => simp [List.lookup] at h
  | cons kv as ih =>
    obtain ⟨k', v'⟩ := kv
    rw [List.lookup] at h
    by_cases hk : k == k'
    · rw [hk] at h
      simp only [Option.some.injEq] at h
      subst h
      exact List.mem_cons_self _ _
    · rw [Bool.not_eq_true] at hk
      rw [hk] at h
      exact List.mem_cons_of_mem _ (ih h)

theorem model_limit_min (name : String) : 8192 ≤ modelLimitOf name := by
  unfold modelLimitOf
  cases h : MODEL_LIMITS.lookup name with
  | none => simp
  | some v =>
    have hv := lookup_mem_values h
    simp only [ MODEL_LIMITS, List.map, List.mem_cons, List.not_mem_nil, or_false] at hv
    simp only [Option.getD_some]
    rcases hv with rfl | rfl | rfl | rfl | rfl | rfl <;> norm_num

/-- C10: for every model name passed to the `TokenManager` constructor
(unknown names defaulting to a 32768-token window with an 800-token
reservation), construction establishes
`available_tokens = total_context_tokens - reserved_response_tokens > 0`,
also after the large-context adjustment that reserves 2000 tokens for
windows above 100000 tokens. -/
theorem tokenManager_available_invariant (name : String) :
    (TokenManager.init name).available_tokens
      = (TokenManager.init name).max_tokens - (TokenManager.init name).reserved_response_tokens
    ∧ 0 < (TokenManager.init name).available_tokens := by
  have hmin := model_limit_min name
  unfold TokenManager.init
  by_cases h : 100000 < modelLimitOf name
  · rw [if_pos h]
    refine ⟨rfl, ?_⟩
    show 0 < modelLimitOf name - 2000
    omega
  · rw [if_neg h]
    refine ⟨rfl, ?_⟩
    show 0 < modelLimitOf name - 800
    omega

/-! ### The provider registry -/

/-- C9: `switch_provider` with an identifier absent from the registry fails
with the unknown-provider error and leaves the registry state (providers and
current selection) exactly as it was; with a registered identifier it
replaces the current selection with the looked-up provider in a single
state update and returns that provider's display name. -/
theorem switch_provider_spec (m : ModelManager) (pname : String) :
    (m.providers.lookup pname = none →
      switch_provider m pname = (m, SwitchOutcome.unknownProvider pname)) ∧
    (∀ p, m.providers.lookup pname = some p →
      (switch_provider m pname).1.current_provider = some p ∧
      (switch_provider m pname).1.providers = m.providers ∧
      (switch_provider m pname).2 = SwitchOutcome.ok p.provider_display) := by
  constructor
  · intro h
    simp [switch_provider, h]
  · intro p h
    simp [switch_provider, h]

def mgrW : ModelManager :=
  { providers := [("deepseek", { provider_display := "DeepSeek V3" })],
    current_provider := none }

/-- Witness for C9 at a concrete registry: an absent identifier returns the
error with the state untouched, a present one selects that provider. -/
theorem switch_provider_spec_witness :
    switch_provider mgrW "openai" = (mgrW, SwitchOutcome.unknownProvider "openai") ∧
    (switch_provider mgrW "deepseek").1.current_provider
      = some { provider_display := "DeepSeek V3" } :=
  ⟨(switch_provider_spec mgrW "openai").1 (by decide),
   ((switch_provider_spec mgrW "deepseek").2 { provider_display := "DeepSeek V3" } (by decide)).1⟩

/-! ### Estimation -/

/-- C8: `estimate_tokens` returns 0 on empty text, is always a non-negative
integer, and equals `len(text) // 3` exactly when at least two of the fixed
code indicators occur in the text and `len(text) // 4` otherwise. -/
theorem estimate_tokens_spec :
    estimate_tokens [] = 0 ∧
    ∀ t : Text, 0 ≤ estimate_tokens t ∧
      estimate_tokens t = t.length / (if _is_code_content t then 3 else 4) := by
  refine ⟨rfl, fun t => ⟨Nat.zero_le _, ?_⟩⟩
  by_cases ht : t = []
  · subst ht
    simp [estimate_tokens]
  · by_cases hc : _is_code_content t <;> simp [estimate_tokens, ht, hc]

/-! ### Compression: no-op case, idempotence failure, empty outputs -/

/-- C5 (amended): structural compression is a no-op on any input already
within budget: `estimate(t) <= b` implies `compress(t, b, false) = t`. -/
theorem compress_noop_of_fits (t : Text) (b : Nat) (h : estimate_tokens t ≤ b) :
    _compress_diff_content t b false = t := by
  unfold _compress_diff_content
  by_cases ht : t = []
  · rw [if_pos ht]
  · rw [if_neg ht, if_pos h]

/-- Witness for the no-op theorem at a concrete in-budget input. -/
theorem compress_noop_of_fits_witness :
    estimate_tokens ("abc".data) ≤ 3 ∧ _compress_diff_content ("abc".data) 3 false = ("abc".data) :=
  ⟨by decide, compress_noop_of_fits ("abc".data) 3 (by decide)⟩

/-- A 40-character all-important diff line used to refute idempotence. -/
def idemText : Text := '+' :: List.replicate 39 'a'

/-- Counterexample to C5's idempotence conjunct: structural compression of
`idemText` to budget 5 yields a 31-character string (20 kept characters plus
the truncation marker) estimating to 7 tokens, which a second application
compresses further, so `compress(compress(t,b,false),b,false) ≠
compress(t,b,false)`. -/
theorem compress_not_idempotent :
    _compress_diff_content (_compress_diff_content idemText 5 false) 5 false
      ≠ _compress_diff_content idemText 5 false := by decide

/-- Counterexample to C2's non-emptiness: a non-empty 16-character plain-text
diff (no important lines) compressed to budget 1 returns the empty string in
both aggressive and structural modes. -/
theorem compress_can_return_empty :
    ("hello world blah".data : Text) ≠ [] ∧
    _compress_diff_content ("hello world blah".data) 1 true = [] ∧
    _compress_diff_content ("hello world blah".data) 1 false = [] := by decide

/-- A 212-character code-like diff (header plus one long added line). -/
def aggCeText : Text := ("@@ -1 +1 @@\n+()=>".data) ++ List.replicate 195 'a'

set_option maxRecDepth 8000 in
/-- Counterexample to C6: on `aggCeText` with budget 30, structural
compression truncates to 90+11 characters (estimate 33) while aggressive
compression truncates only at its fixed 4-chars-per-token cap, 120+11
characters (estimate 43), so the aggressive output estimates strictly
larger than the structural one. -/
theorem aggressive_can_exceed_regular :
    estimate_tokens (_compress_diff_content aggCeText 30 false)
      < estimate_tokens (_compress_diff_content aggCeText 30 true) := by decide

theorem est_le_div3 (x : Text) : estimate_tokens x ≤ x.length / 3 := by
  unfold estimate_tokens
  by_cases hx : x = []
  · simp [hx]
  · rw [if_neg hx]
    by_cases hc : _is_code_content x
    · rw [if_pos hc]
    · rw [if_neg hc]
      exact Nat.div_le_div_left (by norm_num) (by norm_num)

theorem aggressive_len_le (diff : Text) (b : Nat) :
    (_aggressive_compress_diff diff b).length ≤ 4 * b + 11 := by
  unfold _aggressive_compress_diff
  by_cases h : b * 4 < (aggressiveResult diff).length
  · rw [if_pos h]
    rw [List.length_append, List.length_take]
    have hm : (aggrMarker).length = 11 := rfl
    omega
  · rw [if_neg h]
    omega

/-- C6 (amended): the estimate of the aggressive-mode output is bounded by
`(4*b + 11) / 3` — its hard cap of `4` characters per target token plus the
11-character truncation marker, read back at the densest 3-characters-per-
token rate — but it is not bounded by the structural-mode output's estimate
(see the counterexample). -/
theorem aggressive_compress_estimate_bound (t : Text) (b : Nat) :
    estimate_tokens (_compress_diff_content t b true) ≤ (4 * b + 11) / 3 := by
  have hb : b ≤ (4 * b + 11) / 3 := by
    have h1 : 3 * b ≤ 4 * b + 11 := by omega
    have h2 : 3 * b / 3 = b := Nat.mul_div_cancel_left b (by norm_num)
    calc b = 3 * b / 3 := h2.symm
      _ ≤ (4 * b + 11) / 3 := Nat.div_le_div_right h1
  unfold _compress_diff_content
  by_cases ht : t = []
  · rw [if_pos ht]
    subst ht
    exact Nat.zero_le _
  · rw [if_neg ht]
    by_cases hfit : estimate_tokens t ≤ b
    · rw [if_pos hfit]
      exact le_trans hfit hb
    · rw [if_neg hfit]
      show estimate_tokens (_aggressive_compress_diff t b) ≤ (4 * b + 11) / 3
      exact le_trans (est_le_div3 _)
        (Nat.div_le_div_right (aggressive_len_le t b))

/-- The lines that aggressive compression can keep: added lines (`+` but not
`+++`), removed lines (`-` but not `---`), and hunk headers (`@@`). -/
def keepsAggressive (l : Text) : Bool :=
  (("+".data).isPrefixOf l && !(("+++".data).isPrefixOf l))
  || (("-".data).isPrefixOf l && !(("---".data).isPrefixOf l))
  || ("@@".data).isPrefixOf l

theorem regular_nonempty (t : Text) (tn td : Nat) (l : Text)
    (hl : l ∈ diffLines t) (hkeep : is_important l = true) :
    _regular_compress_diff t tn td ≠ [] := by
  have himp : l ∈ importantLines t := List.mem_filter.mpr ⟨hl, hkeep⟩
  have hne : importantLines t ≠ [] := List.ne_nil_of_mem himp
  have hres : regularResult t tn td ≠ [] := by
    unfold regularResult
    rw [Ne, joinChar_eq_nil_iff]
    push_neg
    constructor
    · intro h
      exact hne (List.append_eq_nil.mp h).1
    · intro h
      rcases List.append_eq_cons_iff.mp h with ⟨h1, -⟩ | ⟨l', h1, h2⟩
      · exact hne h1
      · have hmem : ([] : Text) ∈ importantLines t := h1 ▸ List.mem_cons_self _ _
        have := (List.mem_filter.mp hmem).2
        exact absurd this (by decide)
  unfold _regular_compress_diff
  by_cases htr : regularTargetChars t tn td < (regularResult t tn td).length
  · rw [if_pos htr]
    simp [truncMarker]
  · rw [if_neg htr]
    exact hres

theorem aggressive_nonempty (t : Text) (b : Nat) (l : Text)
    (hl : l ∈ diffLines t) (hkeep : keepsAggressive l = true) :
    _aggressive_compress_diff t b ≠ [] := by
  have hparts : ∃ p ps, aggressiveParts t = p :: ps ∧ p ≠ [] := by
    unfold aggressiveParts
    cases hH : headersOf t with
    | cons h hs =>
      refine ⟨h, _, rfl, ?_⟩
      have hh : ("@@".data).isPrefixOf h = true :=
        (List.mem_filter.mp (hH ▸ List.mem_cons_self h hs)).2
      intro hnil
      rw [hnil] at hh
      exact absurd hh (by decide)
    | nil =>
      by_cases hA : addedLinesOf t = []
      · by_cases hR : removedLinesOf t = []
        · exfalso
          simp only [keepsAggressive, Bool.or_eq_true, Bool.and_eq_true,
            Bool.not_eq_true'] at hkeep
          rcases hkeep with (⟨h1, h2⟩ | ⟨h1, h2⟩) | h1
          · exact (List.ne_nil_of_mem (List.mem_filter.mpr
              ⟨hl, by simp [h1, h2]⟩) : addedLinesOf t ≠ []) hA
          · exact (List.ne_nil_of_mem (List.mem_filter.mpr
              ⟨hl, by simp [h1, h2]⟩) : removedLinesOf t ≠ []) hR
          · exact (List.ne_nil_of_mem (List.mem_filter.mpr
              ⟨hl, h1⟩) : headersOf t ≠ []) (by rw [hH])
        · rw [if_pos hA, if_neg hR]
          refine ⟨removedCount (removedLinesOf t).length, _, rfl, ?_⟩
          simp [removedCount]
      · rw [if_neg hA]
        refine ⟨addedCount (addedLinesOf t).length, _, rfl, ?_⟩
        simp [addedCount]
  obtain ⟨p, ps, hpp, hpne⟩ := hparts
  have hres : aggressiveResult t ≠ [] := by
    unfold aggressiveResult
    rw [Ne, joinChar_eq_nil_iff, hpp]
    push_neg
    constructor
    · simp
    · intro h
      have := (List.cons.injEq _ _ _ _).mp h
      exact hpne this.1
  unfold _aggressive_compress_diff
  by_cases htr : b * 4 < (aggressiveResult t).length
  · rw [if_pos htr]
    simp [aggrMarker]
  · rw [if_neg htr]
    exact hres

/-- C2 (amended): compression is a total function (it can raise no error),
and its output is non-empty whenever the input is non-empty and either the
input already fits the budget or some line of the input is one the selected
mode keeps (an important line in structural mode; an added, removed or `@@`
line in aggressive mode).  Without such a line the output can be empty even
for non-empty input (see the counterexample). -/
theorem compress_nonempty_of_kept_line (t : Text) (b : Nat) (aggr : Bool)
    (ht : t ≠ [])
    (hk : estimate_tokens t ≤ b ∨
      ∃ l ∈ diffLines t, (if aggr then keepsAggressive l else is_important l) = true) :
    _compress_diff_content t b aggr ≠ [] := by
  unfold _compress_diff_content
  rw [if_neg ht]
  by_cases hfit : estimate_tokens t ≤ b
  · rw [if_pos hfit]
    exact ht
  · rw [if_neg hfit]
    rcases hk with h | ⟨l, hl, hkeep⟩
    · exact absurd h hfit
    cases aggr with
    | true =>
      rw [if_pos rfl]
      exact aggressive_nonempty t b l hl (by simpa using hkeep)
    | false =>
      rw [if_neg (by simp)]
      exact regular_nonempty t b (estimate_tokens t) l hl (by simpa using hkeep)

/-- Witness for the non-emptiness theorem: a single over-budget added line
is kept (truncated) rather than dropped, so the output is non-empty. -/
theorem compress_nonempty_of_kept_line_witness :
    (("+aaaaaaaa".data : Text) ≠ [] ∧ 1 < estimate_tokens ("+aaaaaaaa".data)) ∧
    _compress_diff_content ("+aaaaaaaa".data) 1 false ≠ [] :=
  ⟨by decide, compress_nonempty_of_kept_line ("+aaaaaaaa".data) 1 false (by decide)
    (Or.inr (by decide))⟩

/-! ### The greedy optimizer loop -/

theorem optimizeLoop_nil (afr u : Nat) : optimizeLoop afr u [] = [] := rfl

theorem optimizeLoop_cons (afr u : Nat) (fd : FileData) (rest : List FileData) :
    optimizeLoop afr u (fd :: rest) =
      match _optimize_single_file fd (afr - u) with
      | none => optimizeLoop afr u rest
      | some ofd =>
        if u + _estimate_file_tokens ofd ≤ afr then
          ofd :: optimizeLoop afr (u + _estimate_file_tokens ofd) rest
        else if 50 < afr - u then
          match _compress_file_content ofd (afr - u) with
          | none => []
          | some cf => [cf]
        else [] := rfl

theorem optimizeLoop_step_none (afr u : Nat) (fd : FileData) (rest : List FileData)
    (h : _optimize_single_file fd (afr - u) = none) :
    optimizeLoop afr u (fd :: rest) = optimizeLoop afr u rest := by
  rw [optimizeLoop_cons, h]

theorem optimizeLoop_step_fits (afr u : Nat) (fd ofd : FileData) (rest : List FileData)
    (h1 : _optimize_single_file fd (afr - u) = some ofd)
    (h2 : u + _estimate_file_tokens ofd ≤ afr) :
    optimizeLoop afr u (fd :: rest)
      = ofd :: optimizeLoop afr (u + _estimate_file_tokens ofd) rest := by
  rw [optimizeLoop_cons, h1]
  simp only [if_pos h2]

theorem optimizeLoop_step_break (afr u : Nat) (fd ofd cf : FileData) (rest : List FileData)
    (h1 : _optimize_single_file fd (afr - u) = some ofd)
    (h2 : ¬ u + _estimate_file_tokens ofd ≤ afr)
    (h3 : 50 < afr - u)
    (h4 : _compress_file_content ofd (afr - u) = some cf) :
    optimizeLoop afr u (fd :: rest) = [cf] := by
  rw [optimizeLoop_cons, h1]
  simp only [if_neg h2, if_pos h3, h4]

theorem _optimize_single_file_path (fd ofd : FileData) (a : Nat)
    (h : _optimize_single_file fd a = some ofd) : ofd.filePath = fd.filePath := by
  unfold _optimize_single_file at h
  split at h
  · cases h
  · split at h
    · cases h; rfl
    · split at h
      · cases h; rfl
      · cases h; rfl

theorem _compress_file_content_path (fd cf : FileData) (a : Nat)
    (h : _compress_file_content fd a = some cf) : cf.filePath = fd.filePath := by
  unfold _compress_file_content at h
  split at h
  · cases h
  · cases h; rfl

theorem _compress_file_content_some (fd : FileData) (a : Nat) (h : ¬ a < 30) :
    _compress_file_content fd a
      = some { fd with diffContent := _compress_diff_content fd.diffContent (a - 20) true } := by
  unfold _compress_file_content
  rw [if_neg h]

theorem _optimize_single_file_empty_diff (fd : FileData) (a : Nat)
    (h50 : ¬ a < 50) (hd : fd.diffContent = []) :
    _optimize_single_file fd a = some fd := by
  unfold _optimize_single_file
  rw [if_neg h50, if_pos hd]

theorem _compress_file_content_empty_diff (fd : FileData) (a : Nat)
    (h30 : ¬ a < 30) (hd : fd.diffContent = []) :
    _compress_file_content fd a = some fd := by
  rw [_compress_file_content_some fd a h30, hd]
  show some { fd with diffContent := ([] : Text) } = some fd
  rw [← hd]

/-- C3 (amended): during the greedy walk, when a file no longer fits the
residual budget even after `_optimize_single_file` and strictly more than 50
tokens remain, the loop makes exactly one final attempt at that file with
aggressive compression within the residual budget (which always produces a
record, since more than 50 tokens remain), appends its result, and stops:
every subsequent file is omitted and the returned segment is exactly that
single compressed record — no marker describing the omitted files is
appended. -/
theorem optimize_break_one_aggressive_attempt (afr u : Nat) (fd ofd : FileData)
    (rest : List FileData)
    (h1 : _optimize_single_file fd (afr - u) = some ofd)
    (h2 : afr < u + _estimate_file_tokens ofd)
    (h3 : 50 < afr - u) :
    ∃ cf, _compress_file_content ofd (afr - u) = some cf ∧
      optimizeLoop afr u (fd :: rest) = [cf] := by
  have h30 : ¬ afr - u < 30 := by omega
  refine ⟨_, _compress_file_content_some ofd (afr - u) h30, ?_⟩
  exact optimizeLoop_step_break afr u fd ofd _ rest h1 (by omega) h3
    (_compress_file_content_some ofd (afr - u) h30)

/-! ### Estimation of long single-character runs, computed symbolically -/

theorem isPrefixOf_replicate_eq_false {c : Char} :
    ∀ (i : Text), (∃ x ∈ i, x ≠ c) → ∀ n, (i.isPrefixOf (List.replicate n c)) = false := by
  intro i
  induction i with
  | nil => intro hx; simp at hx
  | cons a as ih =>
    intro hx n
    cases n with
    | zero => rfl
    | succ m =>
      rw [List.replicate_succ]
      show (a == c && as.isPrefixOf (List.replicate m c)) = false
      by_cases hac : a = c
      · subst hac
        have hx' : ∃ x ∈ as, x ≠ a := by
          rcases hx with ⟨x, hxm, hxne⟩
          rcases List.mem_cons.mp hxm with rfl | hxm'
          · exact absurd rfl hxne
          · exact ⟨x, hxm', hxne⟩
        simp [ih hx' m]
      · simp [hac]

theorem containsSub_replicate_eq_false {c : Char} (i : Text) (hx : ∃ x ∈ i, x ≠ c) :
    ∀ n, containsSub i (List.replicate n c) = false := by
  intro n
  induction n with
  | zero =>
    show i.isEmpty = false
    rcases hx with ⟨x, hxm, -⟩
    cases i with
    | nil => simp at hxm
    | cons a as => rfl
  | succ m ih =>
    rw [List.replicate_succ]
    show (i.isPrefixOf (c :: List.replicate m c) || containsSub i (List.replicate m c)) = false
    rw [ih]
    have := isPrefixOf_replicate_eq_false i hx (m + 1)
    rw [List.replicate_succ] at this
    rw [this]
    rfl

theorem is_code_replicate_a (n : Nat) : _is_code_content (List.replicate n 'a') = false := by
  have hall : ∀ i ∈ code_indicators, (fun i => containsSub i (List.replicate n 'a')) i = false := by
    intro i hi
    have hwit : ∃ x ∈ i, x ≠ 'a' := by
      have : ∀ j ∈ code_indicators, ∃ x ∈ j, x ≠ 'a' := by decide
      exact this i hi
    exact containsSub_replicate_eq_false i hwit n
  unfold _is_code_content
  have h0 : code_indicators.countP (fun i => containsSub i (List.replicate n 'a')) = 0 := by
    rw [List.countP_eq_length_filter]
    rw [List.filter_eq_nil_iff.mpr (by intro a ha; simp [hall a ha])]
    rfl
  rw [h0]
  rfl

theorem estimate_replicate_a (n : Nat) (hn : n ≠ 0) :
    estimate_tokens (List.replicate n 'a') = n / 4 := by
  unfold estimate_tokens
  rw [if_neg (by simp [hn])]
  rw [is_code_replicate_a]
  simp


theorem sumFileTokens_nil : sumFileTokens [] = 0 := rfl

theorem sumFileTokens_cons (fd : FileData) (l : List FileData) :
    sumFileTokens (fd :: l) = _estimate_file_tokens fd + sumFileTokens l := by
  simp [sumFileTokens]

theorem optimizeLoop_dropLast_sum : ∀ (files : List FileData) (afr u : Nat),
    sumFileTokens ((optimizeLoop afr u files).dropLast) ≤ afr - u := by
  intro files
  induction files with
  | nil => intro afr u; simp [optimizeLoop_nil, sumFileTokens]
  | cons fd rest ih =>
    intro afr u
    rw [optimizeLoop_cons]
    cases hopt : _optimize_single_file fd (afr - u) with
    | none => exact ih afr u
    | some ofd =>
      simp only
      by_cases hfit : u + _estimate_file_tokens ofd ≤ afr
      · rw [if_pos hfit]
        cases hL : optimizeLoop afr (u + _estimate_file_tokens ofd) rest with
        | nil => simp [sumFileTokens]
        | cons y ys =>
          rw [List.dropLast_cons₂, sumFileTokens_cons]
          have hrec := ih afr (u + _estimate_file_tokens ofd)
          rw [hL] at hrec
          omega
      · rw [if_neg hfit]
        by_cases h50 : 50 < afr - u
        · rw [if_pos h50]
          cases _compress_file_content ofd (afr - u) with
          | none => simp [sumFileTokens]
          | some cf => simp [sumFileTokens]
        · rw [if_neg h50]
          simp [sumFileTokens]

theorem optimize_dropLast_le (avail : Nat) (files : List FileData) :
    sumFileTokens ((optimize_file_analysis_data avail files).dropLast) ≤ avail - 300 := by
  unfold optimize_file_analysis_data
  by_cases hf : files = []
  · rw [if_pos hf]
    simp [sumFileTokens]
  · rw [if_neg hf]
    by_cases hsm : avail - _estimate_base_prompt_tokens < 100
    · rw [if_pos hsm]
      simp [sumFileTokens]
    · rw [if_neg hsm]
      have h := optimizeLoop_dropLast_sum files (avail - _estimate_base_prompt_tokens) 0
      simpa [_estimate_base_prompt_tokens] using h

/-- C1 (amended): for every `TokenManager` and every file list, the returned
list minus its final entry always totals at most `available_tokens - 300`;
the final entry, when it is the product of the last aggressive-compression
attempt, is appended without re-checking the budget and can push the full
total beyond the bound (see the counterexample). -/
theorem optimize_total_within_budget_except_last (name : String) (files : List FileData) :
    sumFileTokens ((optimize_file_analysis_data
        (TokenManager.init name).available_tokens files).dropLast)
      ≤ (TokenManager.init name).available_tokens - 300 :=
  optimize_dropLast_le _ files

/-- A file record whose 28408-character path alone estimates to 7102 tokens
(7112 with the fixed overheads), just above the 7092-token file budget of a
`gpt-4` manager; its diff is empty. -/
def bigFileA : FileData := { filePath := List.replicate 28408 'a', diffContent := [] }

theorem replicate_file_tokens (n : Nat) (hn : n ≠ 0) :
    _estimate_file_tokens { filePath := List.replicate n 'a', diffContent := [] }
      = n / 4 + 10 := by
  show estimate_tokens (List.replicate n 'a') + 10 + estimate_tokens [] = n / 4 + 10
  rw [estimate_replicate_a n hn]
  rfl

theorem bigFileA_tokens : _estimate_file_tokens bigFileA = 7112 := by
  show _estimate_file_tokens { filePath := List.replicate 28408 'a', diffContent := [] } = 7112
  rw [replicate_file_tokens 28408 (by norm_num)]

theorem gpt4_avail : (TokenManager.init "gpt-4").available_tokens = 7392 := by decide

theorem optimize_gpt4_bigA (rest : List FileData) :
    optimize_file_analysis_data (TokenManager.init "gpt-4").available_tokens (bigFileA :: rest)
      = [bigFileA] := by
  rw [gpt4_avail]
  unfold optimize_file_analysis_data
  rw [if_neg (by simp), if_neg (by norm_num [_estimate_base_prompt_tokens])]
  show optimizeLoop 7092 0 (bigFileA :: rest) = [bigFileA]
  have h1 : _optimize_single_file bigFileA (7092 - 0) = some bigFileA :=
    _optimize_single_file_empty_diff bigFileA (7092 - 0) (by norm_num) rfl
  have h4 : _compress_file_content bigFileA (7092 - 0) = some bigFileA :=
    _compress_file_content_empty_diff bigFileA (7092 - 0) (by norm_num) rfl
  exact optimizeLoop_step_break 7092 0 bigFileA bigFileA bigFileA rest h1
    (by rw [bigFileA_tokens]; norm_num) (by norm_num) h4

/-- Counterexample to C1: with a `gpt-4` manager (`available_tokens = 7392`,
file budget 7092) and the single file `bigFileA`, the final
aggressive-compression attempt appends a record of 7112 estimated tokens, so
the returned list totals 7112 > 7092 = `available_tokens - 300`. -/
theorem optimize_total_can_exceed_budget :
    (TokenManager.init "gpt-4").available_tokens - 300
      < sumFileTokens (optimize_file_analysis_data
          (TokenManager.init "gpt-4").available_tokens [bigFileA]) := by
  rw [optimize_gpt4_bigA [], gpt4_avail, sumFileTokens_cons, sumFileTokens_nil, bigFileA_tokens]
  norm_num

/-- A trivially small second file. -/
def smallFileB : FileData := { filePath := ['b'], diffContent := [] }

/-- Counterexample to C3's marker conjunct: with a `gpt-4` manager, on the
list `[bigFileA, smallFileB]` the loop makes its final aggressive attempt at
`bigFileA` and stops, omitting `smallFileB`; the returned list is exactly
`[bigFileA]` — one entry, no appended marker stating that one file was
omitted. -/
theorem optimize_appends_no_marker :
    optimize_file_analysis_data (TokenManager.init "gpt-4").available_tokens
        [bigFileA, smallFileB] = [bigFileA] ∧
    (optimize_file_analysis_data (TokenManager.init "gpt-4").available_tokens
        [bigFileA, smallFileB]).length = 1 := by
  refine ⟨optimize_gpt4_bigA [smallFileB], ?_⟩
  rw [optimize_gpt4_bigA [smallFileB]]
  rfl

/-- Witness for C3's amended theorem at a small concrete instance: with a
residual budget of 200 and a file of 223 estimated tokens (and empty diff),
the loop performs the single aggressive attempt and drops the rest. -/
theorem optimize_break_one_aggressive_attempt_witness :
    ∃ cf, _compress_file_content { filePath := List.replicate 852 'a', diffContent := [] }
        (200 - 0) = some cf ∧
      optimizeLoop 200 0 [{ filePath := List.replicate 852 'a', diffContent := [] },
        smallFileB] = [cf] := by
  have hft : _estimate_file_tokens
      { filePath := List.replicate 852 'a', diffContent := ([] : Text) } = 223 := by
    rw [replicate_file_tokens 852 (by norm_num)]
  exact optimize_break_one_aggressive_attempt 200 0 _ _ [smallFileB]
    (_optimize_single_file_empty_diff _ (200 - 0) (by norm_num) rfl)
    (by rw [hft]; norm_num) (by norm_num)

/-- The exact condition under which the greedy walk returns its input
unchanged: walking the list, each file's tokens fit the remaining budget and
the remaining budget never drops below the 50-token floor of
`_optimize_single_file`. -/
def unchangedCond : Nat → List FileData → Bool
  | _, [] => true
  | rem, fd :: rest =>
    decide (50 ≤ rem) && decide (_estimate_file_tokens fd ≤ rem)
      && unchangedCond (rem - _estimate_file_tokens fd) rest

theorem optimizeLoop_unchanged : ∀ (files : List FileData) (afr u : Nat),
    unchangedCond (afr - u) files = true → optimizeLoop afr u files = files := by
  intro files
  induction files with
  | nil => intro afr u _; rfl
  | cons fd rest ih =>
    intro afr u h
    rw [unchangedCond] at h
    simp only [Bool.and_eq_true, decide_eq_true_eq] at h
    obtain ⟨⟨h50, hft⟩, hrest⟩ := h
    have hopt : _optimize_single_file fd (afr - u) = some fd := by
      unfold _optimize_single_file
      rw [if_neg (by omega)]
      by_cases hd : fd.diffContent = []
      · rw [if_pos hd]
      · rw [if_neg hd, if_pos hft]
    rw [optimizeLoop_step_fits afr u fd fd rest hopt (by omega)]
    congr 1
    apply ih
    have heq : afr - (u + _estimate_file_tokens fd) = afr - u - _estimate_file_tokens fd := by
      omega
    rw [heq]
    exact hrest

theorem optimizeLoop_sublist : ∀ (files : List FileData) (afr u : Nat),
    ∃ sub : List FileData, sub.Sublist files ∧
      List.Forall₂ (fun o i => o.filePath = i.filePath) (optimizeLoop afr u files) sub := by
  intro files
  induction files with
  | nil =>
    intro afr u
    exact ⟨[], List.nil_sublist _, by rw [optimizeLoop_nil]; exact List.Forall₂.nil⟩
  | cons fd rest ih =>
    intro afr u
    cases hopt : _optimize_single_file fd (afr - u) with
    | none =>
      obtain ⟨sub, hs, hf⟩ := ih afr u
      exact ⟨sub, hs.cons fd,
        by rw [optimizeLoop_step_none afr u fd rest hopt]; exact hf⟩
    | some ofd =>
      by_cases hfit : u + _estimate_file_tokens ofd ≤ afr
      · obtain ⟨sub, hs, hf⟩ := ih afr (u + _estimate_file_tokens ofd)
        refine ⟨fd :: sub, hs.cons₂ fd, ?_⟩
        rw [optimizeLoop_step_fits afr u fd ofd rest hopt hfit]
        exact List.Forall₂.cons (_optimize_single_file_path fd ofd _ hopt) hf
      · by_cases h50 : 50 < afr - u
        · cases hcf : _compress_file_content ofd (afr - u) with
          | none =>
            refine ⟨[], List.nil_sublist _, ?_⟩
            rw [optimizeLoop_cons, hopt]
            simp only [if_neg hfit, if_pos h50, hcf]
            exact List.Forall₂.nil
          | some cf =>
            refine ⟨[fd], (List.nil_sublist rest).cons₂ fd, ?_⟩
            rw [optimizeLoop_step_break afr u fd ofd cf rest hopt hfit h50 hcf]
            refine List.Forall₂.cons ?_ List.Forall₂.nil
            rw [_compress_file_content_path ofd cf _ hcf,
              _optimize_single_file_path fd ofd _ hopt]
        · refine ⟨[], List.nil_sublist _, ?_⟩
          rw [optimizeLoop_cons, hopt]
          simp only [if_neg hfit, if_neg h50]
          exact List.Forall₂.nil

/-- C7 (amended): `optimize_file_analysis_data` returns `[]` on `[]`; it
returns the input unchanged whenever (beyond the whole list fitting the
budget) the remaining budget also stays at or above 50 tokens at every file,
the exact condition `unchangedCond`; and it never reorders: the output is
always matched, entry by entry and in order (equal `filePath`, diff possibly
compressed), with a subsequence of the input.  A list that merely fits the
budget can still lose a file once fewer than 50 tokens remain for it (see
the counterexample). -/
theorem optimize_empty_fit_order :
    (∀ avail : Nat, optimize_file_analysis_data avail [] = []) ∧
    (∀ (avail : Nat) (files : List FileData),
      100 ≤ avail - 300 → unchangedCond (avail - 300) files = true →
      optimize_file_analysis_data avail files = files) ∧
    (∀ (avail : Nat) (files : List FileData), ∃ sub : List FileData,
      sub.Sublist files ∧
      List.Forall₂ (fun o i => o.filePath = i.filePath)
        (optimize_file_analysis_data avail files) sub) := by
  refine ⟨fun avail => rfl, ?_, ?_⟩
  · intro avail files h100 hcond
    by_cases hf : files = []
    · subst hf; rfl
    · unfold optimize_file_analysis_data
      rw [if_neg hf, if_neg (show ¬ avail - _estimate_base_prompt_tokens < 100 by
        show ¬ avail - 300 < 100
        omega)]
      exact optimizeLoop_unchanged files (avail - 300) 0
        (by rw [Nat.sub_zero]; exact hcond)
  · intro avail files
    by_cases hf : files = []
    · subst hf
      exact ⟨[], List.nil_sublist _, List.Forall₂.nil⟩
    · unfold optimize_file_analysis_data
      rw [if_neg hf]
      by_cases hsm : avail - _estimate_base_prompt_tokens < 100
      · rw [if_pos hsm]
        exact ⟨[], List.nil_sublist _, List.Forall₂.nil⟩
      · rw [if_neg hsm]
        exact optimizeLoop_sublist files _ 0

/-- Witness for C7's unchanged case at a concrete in-budget list. -/
theorem optimize_empty_fit_order_witness :
    optimize_file_analysis_data (TokenManager.init "deepseek-v3").available_tokens
        [{ filePath := ['a'], diffContent := ['b', 'c'] }]
      = [{ filePath := ['a'], diffContent := ['b', 'c'] }] :=
  optimize_empty_fit_order.2.1 _ _ (by decide) (by decide)

/-- A file record that fits a `gpt-4` manager's 7092-token file budget whole
(7050 estimated tokens), leaving a 42-token remainder. -/
def fitFileC : FileData := { filePath := List.replicate 28160 'a', diffContent := [] }

theorem fitFileC_tokens : _estimate_file_tokens fitFileC = 7050 := by
  show _estimate_file_tokens { filePath := List.replicate 28160 'a', diffContent := [] } = 7050
  rw [replicate_file_tokens 28160 (by norm_num)]

theorem smallFileB_tokens : _estimate_file_tokens smallFileB = 10 := by decide

theorem _optimize_single_file_small (fd : FileData) (a : Nat) (h : a < 50) :
    _optimize_single_file fd a = none := by
  unfold _optimize_single_file
  rw [if_pos h]

/-- Counterexample to C7's fits-implies-unchanged conjunct: with a `gpt-4`
manager, `[fitFileC, smallFileB]` totals 7060 ≤ 7092 tokens — the whole list
fits the file budget — yet the optimizer returns only `[fitFileC]`:
after including `fitFileC` just 42 tokens remain, `_optimize_single_file`
returns `None` for `smallFileB`, and the fitting file is dropped. -/
theorem optimize_can_drop_fitting_file :
    sumFileTokens [fitFileC, smallFileB]
        ≤ (TokenManager.init "gpt-4").available_tokens - 300 ∧
    optimize_file_analysis_data (TokenManager.init "gpt-4").available_tokens
        [fitFileC, smallFileB] = [fitFileC] := by
  constructor
  · rw [gpt4_avail, sumFileTokens_cons, sumFileTokens_cons, sumFileTokens_nil,
      fitFileC_tokens, smallFileB_tokens]
    norm_num
  · rw [gpt4_avail]
    unfold optimize_file_analysis_data
    rw [if_neg (by simp), if_neg (by norm_num [_estimate_base_prompt_tokens])]
    show optimizeLoop 7092 0 [fitFileC, smallFileB] = [fitFileC]
    have h1 : _optimize_single_file fitFileC (7092 - 0) = some fitFileC :=
      _optimize_single_file_empty_diff fitFileC (7092 - 0) (by norm_num) rfl
    have hstep2 : optimizeLoop 7092 (0 + _estimate_file_tokens fitFileC) [smallFileB] = [] := by
      rw [fitFileC_tokens]
      rw [optimizeLoop_step_none 7092 (0 + 7050) smallFileB []
        (_optimize_single_file_small smallFileB _ (by norm_num))]
      exact optimizeLoop_nil _ _
    rw [optimizeLoop_step_fits 7092 0 fitFileC fitFileC [smallFileB] h1
      (by rw [fitFileC_tokens]; norm_num), hstep2]

/-! ### C4: the structural-compression estimate bound -/

theorem infix_of_pre {x y : Text} (h : x <+: y) : x <:+: y := by
  obtain ⟨t, rfl⟩ := h
  exact ⟨[], t, rfl⟩

theorem tc_le {n q b d : Nat} (hd : 2 ≤ d) (hq : q = n / d) (hb : b < q) :
    n * b / q ≤ d * b + (d - 2) := by
  obtain ⟨e, rfl⟩ : ∃ e, d = e + 2 := ⟨d - 2, by omega⟩
  rw [Nat.add_sub_cancel]
  subst hq
  have hq1 : 0 < n / (e + 2) := by omega
  have hn : n ≤ (e + 2) * (n / (e + 2)) + (e + 1) := by
    have h1 := Nat.div_add_mod n (e + 2)
    have h2 := Nat.mod_lt n (show 0 < e + 2 by omega)
    omega
  have step2 : n * b / (n / (e + 2))
      ≤ ((e + 2) * (n / (e + 2)) + (e + 1)) * b / (n / (e + 2)) :=
    Nat.div_le_div_right (Nat.mul_le_mul_right b hn)
  have heq : ((e + 2) * (n / (e + 2)) + (e + 1)) * b
      = (e + 1) * b + (n / (e + 2)) * ((e + 2) * b) := by ring
  rw [heq, Nat.add_mul_div_left _ _ hq1] at step2
  have step4 : (e + 1) * b / (n / (e + 2)) < e + 1 := by
    rw [Nat.div_lt_iff_lt_mul hq1]
    exact (Nat.mul_lt_mul_left (show 0 < e + 1 by omega)).mpr hb
  calc n * b / (n / (e + 2)) ≤ (e + 1) * b / (n / (e + 2)) + (e + 2) * b := step2
    _ ≤ e + (e + 2) * b := Nat.add_le_add_right (Nat.lt_succ_iff.mp step4) _
    _ = (e + 2) * b + e := Nat.add_comm _ _

theorem regularTargetChars_eq (diff : Text) (tn td : Nat) :
    regularTargetChars diff tn td = diff.length * tn / td := by
  unfold regularTargetChars
  rw [show diffLines diff = splitOnChar newline diff from rfl, joinChar_splitOnChar]

theorem regular_len_le (diff : Text) (tn td : Nat) :
    (_regular_compress_diff diff tn td).length ≤ regularTargetChars diff tn td + 11 := by
  unfold _regular_compress_diff
  by_cases h : regularTargetChars diff tn td < (regularResult diff tn td).length
  · rw [if_pos h, List.length_append, List.length_take]
    have hm : truncMarker.length = 11 := rfl
    omega
  · rw [if_neg h]
    omega

theorem regularResult_mem_lines (diff : Text) (tn td : Nat) (l : Text)
    (h : l ∈ importantLines diff ++ addContext (regularTargetChars diff tn td)
      (joinChar newline (importantLines diff)).length (contextLines diff)) :
    l ∈ diffLines diff := by
  rcases List.mem_append.mp h with h1 | h2
  · exact (List.mem_filter.mp h1).1
  · exact (List.mem_filter.mp (addContext_subset _ _ _ l h2)).1

theorem regular_indicator_transfer (diff : Text) (tn td : Nat) (i : Text)
    (hne : i ≠ []) (hnl : newline ∉ i)
    (hmk : ¬ i <:+: ("...[内容已截断]".data))
    (h : i <:+: _regular_compress_diff diff tn td) : i <:+: diff := by
  have key : ∀ s : Text, s ≠ [] → newline ∉ s →
      s <:+: regularResult diff tn td → s <:+: diff := by
    intro s hs hnl' hinf
    unfold regularResult at hinf
    obtain ⟨l, hl, hsl⟩ := infix_joinChar_mem newline hs hnl' _ hinf
    exact hsl.trans
      (infix_of_mem_splitOnChar newline diff l (regularResult_mem_lines diff tn td l hl))
  unfold _regular_compress_diff at h
  by_cases hc : regularTargetChars diff tn td < (regularResult diff tn td).length
  · rw [if_pos hc] at h
    have hmarker : truncMarker = newline :: ("...[内容已截断]".data) := rfl
    rw [hmarker] at h
    rcases infix_split_append_cons hnl h with h1 | h2
    · have hpre : (regularResult diff tn td).take (regularTargetChars diff tn td)
          <+: regularResult diff tn td :=
        ⟨(regularResult diff tn td).drop (regularTargetChars diff tn td),
          List.take_append_drop _ _⟩
      exact key i hne hnl (h1.trans (infix_of_pre hpre))
    · exact absurd h2 hmk
  · rw [if_neg hc] at h
    exact key i hne hnl h

theorem regular_code_transfer (diff : Text) (tn td : Nat)
    (h : _is_code_content (_regular_compress_diff diff tn td) = true) :
    _is_code_content diff = true := by
  simp only [_is_code_content, decide_eq_true_eq] at h ⊢
  refine le_trans h (List.countP_mono_left ?_)
  intro i hi hir
  have hprops : ∀ j ∈ code_indicators,
      j ≠ [] ∧ newline ∉ j ∧ containsSub j ("...[内容已截断]".data) = false := by decide
  obtain ⟨hne, hnl, hmk⟩ := hprops i hi
  rw [containsSub_iff] at hir ⊢
  exact regular_indicator_transfer diff tn td i hne hnl
    (fun hcon => by rw [← containsSub_iff] at hcon; rw [hcon] at hmk; cases hmk) hir

theorem est_eq_code (t : Text) (ht : t ≠ []) (hc : _is_code_content t = true) :
    estimate_tokens t = t.length / 3 := by
  unfold estimate_tokens
  rw [if_neg ht, if_pos hc]

theorem est_eq_not_code (t : Text) (ht : t ≠ []) (hc : _is_code_content t = false) :
    estimate_tokens t = t.length / 4 := by
  unfold estimate_tokens
  rw [if_neg ht, hc]
  rfl

theorem est_not_code_le (x : Text) (h : _is_code_content x = false) :
    estimate_tokens x ≤ x.length / 4 := by
  by_cases hx : x = []
  · subst hx
    simp [estimate_tokens]
  · rw [est_eq_not_code x hx h]

/-- C4: whenever the budget is strictly below the input's estimate,
structural compression lands within the budget up to the fixed tolerance of
4 tokens (the 11-character truncation marker read at the densest
3-characters-per-token rate): `estimate(compress(t, b, false)) ≤ b + 4`. -/
theorem regular_compress_estimate_bound (t : Text) (b : Nat)
    (h : b < estimate_tokens t) :
    estimate_tokens (_compress_diff_content t b false) ≤ b + 4 := by
  have ht : t ≠ [] := by
    intro he
    rw [he] at h
    simp [estimate_tokens] at h
  have hcomp : _compress_diff_content t b false
      = _regular_compress_diff t b (estimate_tokens t) := by
    unfold _compress_diff_content
    rw [if_neg ht, if_neg (by omega), if_neg (by simp)]
  rw [hcomp]
  have hlen := regular_len_le t b (estimate_tokens t)
  rw [regularTargetChars_eq] at hlen
  by_cases hct : _is_code_content t = true
  · have hq : estimate_tokens t = t.length / 3 := est_eq_code t ht hct
    have htc : t.length * b / estimate_tokens t ≤ 3 * b + 1 := by
      have := tc_le (show 2 ≤ 3 by norm_num) hq h
      omega
    have hlen3 : (_regular_compress_diff t b (estimate_tokens t)).length ≤ 3 * b + 12 := by
      omega
    calc estimate_tokens (_regular_compress_diff t b (estimate_tokens t))
        ≤ (_regular_compress_diff t b (estimate_tokens t)).length / 3 := est_le_div3 _
      _ ≤ (3 * b + 12) / 3 := Nat.div_le_div_right hlen3
      _ = (12 + 3 * b) / 3 := by rw [Nat.add_comm]
      _ = 12 / 3 + b := Nat.add_mul_div_left 12 b (by norm_num)
      _ = b + 4 := by omega
  · rw [Bool.not_eq_true] at hct
    have hcr : _is_code_content (_regular_compress_diff t b (estimate_tokens t)) = false := by
      by_contra hcr'
      rw [Bool.not_eq_false] at hcr'
      rw [regular_code_transfer t b (estimate_tokens t) hcr'] at hct
      cases hct
    have hq : estimate_tokens t = t.length / 4 := est_eq_not_code t ht hct
    have htc : t.length * b / estimate_tokens t ≤ 4 * b + 2 := by
      have := tc_le (show 2 ≤ 4 by norm_num) hq h
      omega
    have hlen4 : (_regular_compress_diff t b (estimate_tokens t)).length ≤ 4 * b + 13 := by
      omega
    calc estimate_tokens (_regular_compress_diff t b (estimate_tokens t))
        ≤ (_regular_compress_diff t b (estimate_tokens t)).length / 4 := est_not_code_le _ hcr
      _ ≤ (4 * b + 13) / 4 := Nat.div_le_div_right hlen4
      _ = (13 + 4 * b) / 4 := by rw [Nat.add_comm]
      _ = 13 / 4 + b := Nat.add_mul_div_left 13 b (by norm_num)
      _ ≤ b + 4 := by omega

/-- Witness for C4 at a concrete over-budget input. -/
theorem regular_compress_estimate_bound_witness :
    1 < estimate_tokens ("hello world blah".data) ∧
    estimate_tokens (_compress_diff_content ("hello world blah".data) 1 false) ≤ 1 + 4 :=
  ⟨by decide, regular_compress_estimate_bound ("hello world blah".data) 1 (by decide)⟩
